import Mathlib

/-!
Verification of the Merkle-tree snapshot recovery module
(`core/lib/zksync_core/src/metadata_calculator/recovery.rs`).

The module is shallowly embedded: 256-bit unsigned integers (`U256`, `H256`)
are modelled as `Nat` with explicit overflow handling where the source uses
overflow-aware operations; fallible functions return `Except String`;
the asynchronous control flow of `recover` / `recover_key_chunk` is modelled
by passing the values observed at each cancellation poll point explicitly.
-/

namespace Recovery

/-- Largest value of a 256-bit unsigned integer (`U256::MAX`). -/
def U256_MAX : Nat := 2 ^ 256 - 1

/-- `SnapshotParameters::DESIRED_CHUNK_SIZE` (recovery.rs line 126): the fixed
target chunk size of 200 000 entries. -/
def DESIRED_CHUNK_SIZE : Nat := 200000

/-- Modelled from the spec: `zksync_utils::ceil_div` is called by
`SnapshotParameters::chunk_count` (recovery.rs line 158) but its source is not
part of this repository slice. Per spec section 4.2 the derived chunk count is
`max(1, ceil(entry_count / 200_000))`, so the division helper is modelled as
ceiling division with a minimum of 1. -/
def ceil_div (a b : Nat) : Nat := max 1 ((a + b - 1) / b)

/-- `SnapshotParameters` (recovery.rs lines 117-121): miniblock number,
expected root hash (32-byte digest modelled as `Nat`), and log count. -/
structure SnapshotParameters where
  miniblock : Nat
  expected_root_hash : Nat
  log_count : Nat

/-- `SnapshotParameters::chunk_count` (recovery.rs lines 157-159). -/
def SnapshotParameters.chunk_count (s : SnapshotParameters) : Nat :=
  ceil_div s.log_count DESIRED_CHUNK_SIZE

/-- `RecoveryOptions` (recovery.rs lines 164-168), sans the event sink. -/
structure RecoveryOptions where
  chunk_count : Nat
  concurrency_limit : Nat

/-- Capacity of the semaphore created in `AsyncTreeRecovery::recover`
(recovery.rs line 248): `Semaphore::new(options.concurrency_limit)`. -/
def semaphore_capacity (options : RecoveryOptions) : Nat :=
  options.concurrency_limit

/-- The `RecoveryOptions` built by `GenericAsyncTree::ensure_ready`
(recovery.rs lines 210-214): the concurrency limit is set to
`pool.max_size() as usize`. -/
def ensure_ready_recovery_options (pool_max_size : Nat)
    (snapshot_chunk_count : Nat) : RecoveryOptions :=
  { chunk_count := snapshot_chunk_count, concurrency_limit := pool_max_size }

/-- `AsyncTreeRecovery::hashed_key_ranges` (recovery.rs lines 281-299).
Ranges are inclusive pairs `(start, end)` of 256-bit keys modelled as `Nat`.
`stride * i` never overflows for the chunk counts used by the program (proved
below); `overflowing_add` is modelled by comparing the exact sum with `2^256`.
The source asserts `count > 0`; all theorems below assume it. -/
def hashed_key_ranges (count : Nat) : List (Nat × Nat) :=
  let stride0 := U256_MAX / count
  let stride := if stride0 < U256_MAX then stride0 + 1 else stride0
  let stride_minus_one := stride0
  (List.range count).map fun i =>
    let start := stride * i
    let e := stride_minus_one + start
    (start, if 2 ^ 256 ≤ e then U256_MAX else e)

/-- A storage-log entry as returned by the source store
(`SnapshotStorageLog`-shaped value used in `filter_chunks` and
`recover_key_chunk`): hashed key, 32-byte value and leaf index. -/
structure DbEntry where
  key : Nat
  value : Nat
  leaf_index : Nat
deriving DecidableEq, Repr

/-- Error message of the divergence check in `filter_chunks`
(recovery.rs lines 337-342), with the dynamic interpolations elided. -/
def DIVERGENCE_MSG : String :=
  "Mismatch between entry in Postgres snapshot and tree; the recovery procedure may be corrupted"

/-- Error message of the duplicate-key check in `recover_key_chunk`
(recovery.rs lines 389-393), with the dynamic interpolations elided. -/
def CORRUPTION_MSG : String :=
  "node snapshot in Postgres is corrupted: two entries have the same hashed_key"

/-- The iterator chain `chunk_starts.iter().enumerate().filter_map(...)` of
`filter_chunks` (recovery.rs lines 321-324): indices paired with the present
chunk-start entries. The first argument is the index of the list head. -/
def existing_starts : Nat → List (Option DbEntry) → List (Nat × DbEntry)
  | _, [] => []
  | i, none :: rest => existing_starts (i + 1) rest
  | i, some e :: rest => (i, e) :: existing_starts (i + 1) rest

/-- The `for` loop of `filter_chunks` (recovery.rs lines 331-343) over
`tree_entries.into_iter().zip(existing_starts)`. A tree answer `none` models
the empty sentinel (`tree_entry.is_empty()`); the chunk at the corresponding
index is then pushed to the output. A present tree answer `(value, leaf_index)`
must agree with the source-store entry, otherwise the loop aborts with
`DIVERGENCE_MSG` (the `anyhow::ensure!` at lines 337-342). -/
def filter_loop (key_chunks : List (Nat × Nat)) :
    List (Option (Nat × Nat) × (Nat × DbEntry)) → List (Nat × Nat) →
    Except String (List (Nat × Nat))
  | [], output => .ok output
  | (tree_entry, (i, db_entry)) :: rest, output =>
    match tree_entry with
    | none => filter_loop key_chunks rest (output ++ [key_chunks.getD i (0, 0)])
    | some (v, li) =>
      if v = db_entry.value ∧ li = db_entry.leaf_index then
        filter_loop key_chunks rest output
      else
        .error DIVERGENCE_MSG

/-- `AsyncTreeRecovery::filter_chunks` (recovery.rs lines 302-345).
The tree lookup `self.entries(start_keys)` is modelled by the function
`tree_lookup : key → Option (value, leaf_index)`; the source store answer
`get_chunk_starts_for_miniblock` is passed in as `chunk_starts`, one optional
entry per chunk. -/
def filter_chunks (tree_lookup : Nat → Option (Nat × Nat))
    (key_chunks : List (Nat × Nat)) (chunk_starts : List (Option DbEntry)) :
    Except String (List (Nat × Nat)) :=
  let existing := existing_starts 0 chunk_starts
  let tree_entries := existing.map fun p => tree_lookup p.2.key
  filter_loop key_chunks (tree_entries.zip existing) []

/-- The pending subset as the spec words it (spec section 4.3): the chunks
whose first entry exists in the source store and is absent from the tree, in
the original chunk order. Stated independently of `filter_chunks` so the two
can be compared. -/
def pending_chunks_spec (tree_lookup : Nat → Option (Nat × Nat))
    (key_chunks : List (Nat × Nat)) (chunk_starts : List (Option DbEntry)) :
    List (Nat × Nat) :=
  (key_chunks.zip chunk_starts).filterMap fun p =>
    match p.2 with
    | some e => if tree_lookup e.key = none then some p.1 else none
    | none => none

/-- The duplicate-key sanity check of `recover_key_chunk`
(recovery.rs lines 385-394): `all_entries.windows(2)` contains a pair of
adjacent entries with the same hashed key. -/
def hasAdjacentDuplicate : List DbEntry → Bool
  | a :: b :: rest => a.key == b.key || hasAdjacentDuplicate (b :: rest)
  | _ => false

/-- `AsyncTreeRecovery::recover_key_chunk` (recovery.rs lines 347-421).
The three reads of `*stop_receiver.borrow()` (lines 359, 379, 409) are
modelled by the booleans `stop1 stop2 stop3` — the values observed at each
poll point. `all_entries` is the source-store answer for the chunk; `tree` is
the current multiset of entries of the shared tree, and `tree.extend`
(line 415) appends the chunk entries. Returns the function result
(`Ok(()) / Err`) together with the resulting tree state. -/
def recover_key_chunk (stop1 stop2 stop3 : Bool)
    (all_entries tree : List DbEntry) : Except String Unit × List DbEntry :=
  if stop1 then (.ok (), tree)
  else if stop2 then (.ok (), tree)
  else if hasAdjacentDuplicate all_entries then (.error CORRUPTION_MSG, tree)
  else if stop3 then (.ok (), tree)
  else (.ok (), tree ++ all_entries)

/-- The per-chunk task closure in `recover` (recovery.rs lines 249-258):
`chunk_recovered` is emitted exactly when `recover_key_chunk` returned `Ok`
(the `?` on line 255 propagates an error before the emission on line 256). -/
def chunk_task_emits_chunk_recovered (stop1 stop2 stop3 : Bool)
    (all_entries tree : List DbEntry) : Bool :=
  match (recover_key_chunk stop1 stop2 stop3 all_entries tree).1 with
  | .ok _ => true
  | .error _ => false

/-- Error message of the root-hash check in `recover`
(recovery.rs lines 268-272), with the dynamic interpolations elided. -/
def ROOT_HASH_MISMATCH_MSG : String :=
  "Root hash of recovered tree differs from expected root hash"

/-- Result of `AsyncTreeRecovery::recover`: `Err` / `Ok(None)` (cancelled) /
`Ok(Some(finalized tree))`, the last carrying the root hash of the tree that
was finalized. -/
inductive RecoverResult where
  | error (msg : String)
  | cancelled
  | finalized (tree_root : Nat)
deriving DecidableEq, Repr

/-- Tail of `AsyncTreeRecovery::recover` after `future::try_join_all`
(recovery.rs lines 259-278): `workers` is the combined worker result,
`stop_after_join` the value of `*stop_receiver.borrow()` observed on
line 261, and `actual_root_hash` the value `tree.root_hash()` would return.
On success the tree is finalized (line 273) and returned. -/
def recover_finalize (workers : Except String Unit) (stop_after_join : Bool)
    (actual_root_hash expected_root_hash : Nat) : RecoverResult :=
  match workers with
  | .error msg => .error msg
  | .ok _ =>
    if stop_after_join then .cancelled
    else if actual_root_hash = expected_root_hash then
      .finalized actual_root_hash
    else .error ROOT_HASH_MISMATCH_MSG

/-- `GenericAsyncTree` (helpers): the initial tree state dispatched on by
`ensure_ready`. Payloads are abstracted to identifiers. -/
inductive GenericAsyncTree where
  | Ready (tree : Nat)
  | Recovering (recovered_version : Nat)
  | Empty (db : Nat) (mode : Nat)

/-- `snapshot_l1_batch` (recovery.rs lines 424-426): unconditionally returns
`Ok(None)` (placeholder, FIXME PLA-708 in the source). -/
def snapshot_l1_batch : Except String (Option Nat) := .ok none

/-- Outcome of the dispatch part of `GenericAsyncTree::ensure_ready`
(recovery.rs lines 179-206): either an early return with a tree, or entry
into the recovery path (lines 208-216) with the snapshot L1 batch. -/
inductive EnsureReadyOutcome where
  | returnReady (tree : Nat)
  | returnFresh (db : Nat) (mode : Nat)
  | resumeRecovery (recovered_version l1_batch : Nat)
  | startRecovery (db mode l1_batch : Nat)
deriving DecidableEq, Repr

/-- Error message on line 183 of recovery.rs. -/
def NO_SNAPSHOT_MSG : String :=
  "Merkle tree is recovering, but Postgres does not contain snapshot L1 batch"

/-- Error message of the version check on lines 186-190 of recovery.rs. -/
def VERSION_MISMATCH_MSG : String :=
  "Snapshot L1 batch in Postgres differs from the recovered Merkle tree version"

/-- The dispatch of `GenericAsyncTree::ensure_ready` (recovery.rs
lines 179-206): `Ready` trees are returned unchanged; a `Recovering` tree
requires a snapshot L1 batch matching its recovered version; an `Empty` tree
enters recovery when a snapshot L1 batch exists and otherwise becomes a fresh
`AsyncTree::new(db, mode)`. -/
def ensure_ready_dispatch : GenericAsyncTree → Except String EnsureReadyOutcome
  | .Ready t => .ok (.returnReady t)
  | .Recovering rv =>
    match snapshot_l1_batch with
    | .error e => .error e
    | .ok none => .error NO_SNAPSHOT_MSG
    | .ok (some b) =>
      if b = rv then .ok (.resumeRecovery rv b) else .error VERSION_MISMATCH_MSG
  | .Empty db mode =>
    match snapshot_l1_batch with
    | .error e => .error e
    | .ok (some b) => .ok (.startRecovery db mode b)
    | .ok none => .ok (.returnFresh db mode)

/-! ## Theorems -/

/-- Claim C1: for every snapshot, the derived chunk count equals
`max(1, ceil(entry_count / 200_000))`; in particular, for entry counts
0, 100, 200 000, 200 001, 160 000 000 and 160 000 001 the `chunk_count`
operation returns 1, 1, 1, 2, 800 and 801 respectively (minimum 1 even for a
snapshot with zero entries). -/
theorem chunk_count_spec :
    (∀ s : SnapshotParameters,
      s.chunk_count = max 1 ((s.log_count + 199999) / 200000)) ∧
    (SnapshotParameters.mk 1 0 0).chunk_count = 1 ∧
    (SnapshotParameters.mk 1 0 100).chunk_count = 1 ∧
    (SnapshotParameters.mk 1 0 200000).chunk_count = 1 ∧
    (SnapshotParameters.mk 1 0 200001).chunk_count = 2 ∧
    (SnapshotParameters.mk 1 0 160000000).chunk_count = 800 ∧
    (SnapshotParameters.mk 1 0 160000001).chunk_count = 801 := by
  refine ⟨fun s => ?_, rfl, rfl, rfl, rfl, rfl, rfl⟩
  show max 1 ((s.log_count + DESIRED_CHUNK_SIZE - 1) / DESIRED_CHUNK_SIZE) = _
  have h : s.log_count + DESIRED_CHUNK_SIZE - 1 = s.log_count + 199999 := by
    simp [DESIRED_CHUNK_SIZE]
  rw [h]
  rfl

/-- Claim C2, counterexample: the semaphore created by `recover` for options
with `concurrency_limit = 5` has capacity 5, even when the pool it is used
with has `max_size = 1`; the claimed capacity `min(pool.max_size,
configured_concurrency_limit) = min 1 5 = 1` differs. -/
theorem semaphore_capacity_counterexample :
    semaphore_capacity { chunk_count := 1, concurrency_limit := 5 } = 5 ∧
    min 1 5 = 1 ∧ (5 : Nat) ≠ 1 := by
  exact ⟨rfl, rfl, by decide⟩

/-- Claim C2, amended: the semaphore capacity is exactly the
`concurrency_limit` field of the recovery options, with no `min` applied
against the pool size; `ensure_ready` simply sets that field to
`pool.max_size`, so in the `ensure_ready` path the capacity equals the pool
size. -/
theorem semaphore_capacity_amended :
    (∀ options : RecoveryOptions,
      semaphore_capacity options = options.concurrency_limit) ∧
    (∀ pool_max_size snapshot_chunk_count : Nat,
      semaphore_capacity
        (ensure_ready_recovery_options pool_max_size snapshot_chunk_count) =
        pool_max_size) :=
  ⟨fun _ => rfl, fun _ _ => rfl⟩

/-- Claim C3, counterexample: a worker that observes the cancellation flag at
its first poll point returns success without extending the tree (the tree
state is unchanged), and the surrounding chunk task still emits
`chunk_recovered`. -/
theorem chunk_recovered_without_extend_counterexample :
    chunk_task_emits_chunk_recovered true false false [⟨1, 2, 3⟩] [] = true ∧
    recover_key_chunk true false false [⟨1, 2, 3⟩] [] = (.ok (), []) :=
  ⟨rfl, rfl⟩

/-- Claim C3, amended: `chunk_recovered` is emitted whenever the worker
returns success, which includes workers that observed the cancellation flag
at a poll point and returned without extending the tree; when no cancellation
is observed at any poll point and the chunk is not corrupted, the emission
happens only after the worker's tree extend has completed. -/
theorem chunk_recovered_emission_amended (stop1 stop2 stop3 : Bool)
    (all_entries tree : List DbEntry) :
    (stop1 = true →
      recover_key_chunk stop1 stop2 stop3 all_entries tree = (.ok (), tree) ∧
      chunk_task_emits_chunk_recovered stop1 stop2 stop3 all_entries tree =
        true) ∧
    (stop1 = false → stop2 = false → stop3 = false →
      hasAdjacentDuplicate all_entries = false →
      recover_key_chunk stop1 stop2 stop3 all_entries tree =
        (.ok (), tree ++ all_entries) ∧
      chunk_task_emits_chunk_recovered stop1 stop2 stop3 all_entries tree =
        true) := by
  constructor
  · rintro rfl
    exact ⟨rfl, rfl⟩
  · rintro rfl rfl rfl hdup
    refine ⟨?_, ?_⟩ <;>
      simp [recover_key_chunk, chunk_task_emits_chunk_recovered, hdup]

/-- Witness for the amended claim C3 at a concrete input. -/
theorem chunk_recovered_emission_amended_witness :
    recover_key_chunk false false false [⟨1, 2, 3⟩, ⟨4, 5, 6⟩] [] =
      (.ok (), [⟨1, 2, 3⟩, ⟨4, 5, 6⟩]) ∧
    chunk_task_emits_chunk_recovered false false false
      [⟨1, 2, 3⟩, ⟨4, 5, 6⟩] [] = true :=
  (chunk_recovered_emission_amended false false false
    [⟨1, 2, 3⟩, ⟨4, 5, 6⟩] []).2 rfl rfl rfl (by decide)

/-- Claim C6: if the entries loaded for a chunk contain two adjacent entries
with the same hashed key, and the worker did not already bail out at the two
cancellation polls that precede the check, `recover_key_chunk` returns a
fatal error and the tree state is unchanged (no entry of the chunk is
extended into the tree). -/
theorem recover_key_chunk_duplicate_error (stop1 stop2 stop3 : Bool)
    (all_entries tree : List DbEntry)
    (h1 : stop1 = false) (h2 : stop2 = false)
    (hdup : hasAdjacentDuplicate all_entries = true) :
    recover_key_chunk stop1 stop2 stop3 all_entries tree =
      (.error CORRUPTION_MSG, tree) := by
  subst h1; subst h2
  simp [recover_key_chunk, hdup]

/-- Witness for claim C6 at a concrete input. -/
theorem recover_key_chunk_duplicate_error_witness :
    hasAdjacentDuplicate [⟨1, 2, 3⟩, ⟨1, 4, 5⟩] = true ∧
    recover_key_chunk false false false [⟨1, 2, 3⟩, ⟨1, 4, 5⟩] [⟨9, 9, 9⟩] =
      (.error CORRUPTION_MSG, [⟨9, 9, 9⟩]) :=
  ⟨by decide, recover_key_chunk_duplicate_error false false false _ _ rfl rfl
    (by decide)⟩

/-- Claim C5: after all chunk workers complete without error and no
cancellation is observed, `recover` finalizes the tree and returns it exactly
when the tree's root hash equals the snapshot's expected root hash; on any
mismatch it returns an error and the tree is not finalized. -/
theorem recover_root_hash_gate (actual expected : Nat) :
    (recover_finalize (.ok ()) false actual expected = .finalized actual ↔
      actual = expected) ∧
    (actual ≠ expected →
      recover_finalize (.ok ()) false actual expected =
        .error ROOT_HASH_MISMATCH_MSG) := by
  constructor
  · constructor
    · intro h
      by_contra hne
      simp [recover_finalize, hne] at h
    · intro h
      simp [recover_finalize, h]
  · intro hne
    simp [recover_finalize, hne]

/-- Witness for claim C5 at concrete inputs: a mismatch yields the root-hash
error; matching hashes yield the finalized tree. -/
theorem recover_root_hash_gate_witness :
    recover_finalize (.ok ()) false 1 2 = .error ROOT_HASH_MISMATCH_MSG ∧
    recover_finalize (.ok ()) false 7 7 = .finalized 7 :=
  ⟨(recover_root_hash_gate 1 2).2 (by decide),
    (recover_root_hash_gate 7 7).1.mpr rfl⟩

/-- Claim C10: if the cancellation signal is observed as set after all chunk
worker tasks completed without error, `recover` returns `Ok(None)`
(cancelled), independently of the actual and expected root hashes — so no
root-hash comparison takes place and the tree is not finalized. -/
theorem recover_cancelled_after_join (actual expected : Nat) :
    recover_finalize (.ok ()) true actual expected = .cancelled := rfl

/-- Claim C9: because `snapshot_l1_batch` unconditionally returns `None`,
`ensure_ready` on an `Empty` initial tree always returns a fresh empty tree
(without entering recovery), and `ensure_ready` on a `Recovering` initial
tree always returns an error. -/
theorem ensure_ready_with_placeholder_snapshot_lookup :
    (∀ db mode : Nat,
      ensure_ready_dispatch (.Empty db mode) = .ok (.returnFresh db mode)) ∧
    (∀ rv : Nat,
      ensure_ready_dispatch (.Recovering rv) = .error NO_SNAPSHOT_MSG) :=
  ⟨fun _ _ => rfl, fun _ => rfl⟩

/-- The i-th range produced by `hashed_key_ranges count`. -/
def rangeAt (count i : Nat) : Nat × Nat :=
  let stride0 := U256_MAX / count
  let stride := if stride0 < U256_MAX then stride0 + 1 else stride0
  (stride * i,
    if 2 ^ 256 ≤ stride0 + stride * i then U256_MAX else stride0 + stride * i)

theorem hashed_key_ranges_length (count : Nat) :
    (hashed_key_ranges count).length = count := by
  simp [hashed_key_ranges]

theorem hashed_key_ranges_getD (count i : Nat) (hi : i < count) :
    (hashed_key_ranges count).getD i (0, 0) = rangeAt count i := by
  simp [hashed_key_ranges, rangeAt, List.getD_eq_getElem?_getD,
    List.getElem?_map, List.getElem?_range, hi]

/-- Claim C4: for every `n` with `1 ≤ n ≤ 2^20`, `hashed_key_ranges n`
returns exactly `n` inclusive ranges over 256-bit keys (each with
`start ≤ end ≤ 2^256 − 1`) such that the first range starts at 0, the last
range ends at `2^256 − 1`, and every adjacent pair satisfies
`next.start = prev.end + 1`: a gap-free, overlap-free, order-preserving
partition of the key space. -/
theorem hashed_key_ranges_partition (n : Nat) (hn1 : 1 ≤ n)
    (hn2 : n ≤ 2 ^ 20) :
    (hashed_key_ranges n).length = n ∧
    ((hashed_key_ranges n).getD 0 (0, 0)).1 = 0 ∧
    ((hashed_key_ranges n).getD (n - 1) (0, 0)).2 = 2 ^ 256 - 1 ∧
    (∀ i, i < n →
      ((hashed_key_ranges n).getD i (0, 0)).1 ≤
        ((hashed_key_ranges n).getD i (0, 0)).2 ∧
      ((hashed_key_ranges n).getD i (0, 0)).2 ≤ 2 ^ 256 - 1) ∧
    (∀ i, i + 1 < n →
      ((hashed_key_ranges n).getD (i + 1) (0, 0)).1 =
        ((hashed_key_ranges n).getD i (0, 0)).2 + 1) := by
  rcases eq_or_lt_of_le hn1 with h1 | hn
  · -- the single-chunk case `n = 1`
    subst h1
    have h0 : (0 : Nat) < 1 := by norm_num
    refine ⟨hashed_key_ranges_length 1, ?_, ?_, ?_, ?_⟩
    · rw [hashed_key_ranges_getD 1 0 h0]
      simp [rangeAt]
    · show ((hashed_key_ranges 1).getD 0 (0, 0)).2 = 2 ^ 256 - 1
      rw [hashed_key_ranges_getD 1 0 h0]
      norm_num [rangeAt, U256_MAX]
    · intro i hi
      have hi0 : i = 0 := by omega
      subst hi0
      rw [hashed_key_ranges_getD 1 0 h0]
      norm_num [rangeAt, U256_MAX]
    · intro i hi
      omega
  · -- the multi-chunk case `2 ≤ n`
    have hnpos : 0 < n := by omega
    set s0 := U256_MAX / n with hs0
    have hUpos : 0 < U256_MAX := by norm_num [U256_MAX]
    have hU : U256_MAX + 1 = 2 ^ 256 := by norm_num [U256_MAX]
    have hs0lt : s0 < U256_MAX := Nat.div_lt_self hUpos hn
    have hrange : ∀ i, rangeAt n i =
        ((s0 + 1) * i,
          if 2 ^ 256 ≤ s0 + (s0 + 1) * i then 2 ^ 256 - 1
          else s0 + (s0 + 1) * i) := by
      intro i
      rw [rangeAt]
      simp only [← hs0, if_pos hs0lt]
      have hM : U256_MAX = 2 ^ 256 - 1 := rfl
      rw [hM]
    -- arithmetic facts about the stride
    have hdm : n * s0 + U256_MAX % n = U256_MAX := Nat.div_add_mod U256_MAX n
    have hmod : U256_MAX % n < n := Nat.mod_lt _ hnpos
    have hcomm : s0 * n = n * s0 := by ring
    have hmul_le : s0 * n ≤ U256_MAX := by
      rw [hs0]
      exact Nat.div_mul_le_self U256_MAX n
    have hnn : n * n ≤ U256_MAX := by
      calc n * n ≤ 2 ^ 20 * 2 ^ 20 := Nat.mul_le_mul hn2 hn2
      _ ≤ U256_MAX := by norm_num [U256_MAX]
    have hts : n ≤ s0 := by
      rw [hs0]
      exact (Nat.le_div_iff_mul_le hnpos).mpr hnn
    have hC1 : (s0 + 1) * n = (s0 + 1) * (n - 1) + (s0 + 1) := by
      have h : n - 1 + 1 = n := by omega
      calc (s0 + 1) * n = (s0 + 1) * ((n - 1) + 1) := by rw [h]
      _ = (s0 + 1) * (n - 1) + (s0 + 1) := by ring
    have hC2 : (s0 + 1) * n = s0 * n + n := by ring
    have key1 : 2 ^ 256 ≤ (s0 + 1) * n := by omega
    have keyB : (s0 + 1) * (n - 1) < 2 ^ 256 := by omega
    have hmono : ∀ i j : Nat, i ≤ j → (s0 + 1) * i ≤ (s0 + 1) * j :=
      fun i j h => Nat.mul_le_mul_left _ h
    refine ⟨hashed_key_ranges_length n, ?_, ?_, ?_, ?_⟩
    · rw [hashed_key_ranges_getD n 0 hnpos, hrange]
      simp
    · rw [hashed_key_ranges_getD n (n - 1) (by omega), hrange]
      have hstep : (s0 + 1) * n = (s0 + 1) * (n - 1) + s0 + 1 := by omega
      by_cases hc : 2 ^ 256 ≤ s0 + (s0 + 1) * (n - 1)
      · simp only [if_pos hc]
      · simp only [if_neg hc]
        omega
    · intro i hi
      rw [hashed_key_ranges_getD n i hi, hrange]
      have hle : (s0 + 1) * i ≤ (s0 + 1) * (n - 1) := hmono i (n - 1) (by omega)
      by_cases hc : 2 ^ 256 ≤ s0 + (s0 + 1) * i
      · simp only [if_pos hc]
        constructor <;> omega
      · simp only [if_neg hc]
        constructor <;> omega
    · intro i hi
      rw [hashed_key_ranges_getD n (i + 1) hi, hashed_key_ranges_getD n i (by omega),
        hrange, hrange]
      have hstep : (s0 + 1) * (i + 1) = (s0 + 1) * i + s0 + 1 := by ring
      have hle : (s0 + 1) * (i + 1) ≤ (s0 + 1) * (n - 1) :=
        hmono (i + 1) (n - 1) (by omega)
      have hc : ¬ 2 ^ 256 ≤ s0 + (s0 + 1) * i := by omega
      simp only [if_neg hc]
      omega

/-- Witness for claim C4 at `n = 2`. -/
theorem hashed_key_ranges_partition_witness :
    (1 ≤ 2 ∧ 2 ≤ 2 ^ 20) ∧
    ((hashed_key_ranges 2).length = 2 ∧
      ((hashed_key_ranges 2).getD 0 (0, 0)).1 = 0 ∧
      ((hashed_key_ranges 2).getD (2 - 1) (0, 0)).2 = 2 ^ 256 - 1 ∧
      (∀ i, i < 2 →
        ((hashed_key_ranges 2).getD i (0, 0)).1 ≤
          ((hashed_key_ranges 2).getD i (0, 0)).2 ∧
        ((hashed_key_ranges 2).getD i (0, 0)).2 ≤ 2 ^ 256 - 1) ∧
      (∀ i, i + 1 < 2 →
        ((hashed_key_ranges 2).getD (i + 1) (0, 0)).1 =
          ((hashed_key_ranges 2).getD i (0, 0)).2 + 1)) :=
  ⟨⟨by norm_num, by norm_num⟩,
    hashed_key_ranges_partition 2 (by norm_num) (by norm_num)⟩

/-! ### Lemmas about `filter_chunks` -/

theorem filter_loop_ok (kc : List (Nat × Nat))
    (l : List (Option (Nat × Nat) × (Nat × DbEntry))) (acc : List (Nat × Nat))
    (hmatch : ∀ p ∈ l, ∀ v li, p.1 = some (v, li) →
      v = p.2.2.value ∧ li = p.2.2.leaf_index) :
    filter_loop kc l acc =
      .ok (acc ++ l.filterMap fun p =>
        if p.1 = none then some (kc.getD p.2.1 (0, 0)) else none) := by
  induction l generalizing acc with
  | nil => simp [filter_loop]
  | cons p rest ih =>
    obtain ⟨te, i, e⟩ := p
    have hrest : ∀ p ∈ rest, ∀ v li, p.1 = some (v, li) →
        v = p.2.2.value ∧ li = p.2.2.leaf_index :=
      fun p hp => hmatch p (List.mem_cons_of_mem _ hp)
    match te with
    | none =>
      rw [show filter_loop kc ((none, (i, e)) :: rest) acc =
        filter_loop kc rest (acc ++ [kc.getD i (0, 0)]) from rfl]
      rw [ih _ hrest]
      simp
    | some (v, li) =>
      have hve := hmatch (some (v, li), (i, e)) (List.mem_cons_self _ _) v li rfl
      rw [show filter_loop kc ((some (v, li), (i, e)) :: rest) acc =
        if v = e.value ∧ li = e.leaf_index then filter_loop kc rest acc
        else .error DIVERGENCE_MSG from rfl]
      rw [if_pos hve, ih _ hrest]
      simp

theorem filter_loop_error (kc : List (Nat × Nat))
    (l : List (Option (Nat × Nat) × (Nat × DbEntry))) (acc : List (Nat × Nat))
    (hbad : ∃ p ∈ l, ∃ v li, p.1 = some (v, li) ∧
      ¬(v = p.2.2.value ∧ li = p.2.2.leaf_index)) :
    filter_loop kc l acc = .error DIVERGENCE_MSG := by
  induction l generalizing acc with
  | nil => simp at hbad
  | cons p rest ih =>
    obtain ⟨q, hq, v, li, hv, hne⟩ := hbad
    obtain ⟨te, i, e⟩ := p
    rcases List.mem_cons.mp hq with hqp | hqrest
    · subst hqp
      simp only at hv
      subst hv
      rw [show filter_loop kc ((some (v, li), (i, e)) :: rest) acc =
        if v = e.value ∧ li = e.leaf_index then filter_loop kc rest acc
        else .error DIVERGENCE_MSG from rfl]
      rw [if_neg hne]
    · have hbad' : ∃ p ∈ rest, ∃ v li, p.1 = some (v, li) ∧
          ¬(v = p.2.2.value ∧ li = p.2.2.leaf_index) := ⟨q, hqrest, v, li, hv, hne⟩
      match te with
      | none =>
        rw [show filter_loop kc ((none, (i, e)) :: rest) acc =
          filter_loop kc rest (acc ++ [kc.getD i (0, 0)]) from rfl]
        exact ih _ hbad'
      | some (v', li') =>
        rw [show filter_loop kc ((some (v', li'), (i, e)) :: rest) acc =
          if v' = e.value ∧ li' = e.leaf_index then filter_loop kc rest acc
          else .error DIVERGENCE_MSG from rfl]
        by_cases h : v' = e.value ∧ li' = e.leaf_index
        · rw [if_pos h]; exact ih _ hbad'
        · rw [if_neg h]

theorem filter_loop_ok_mem (kc : List (Nat × Nat))
    (l : List (Option (Nat × Nat) × (Nat × DbEntry))) :
    ∀ (acc out : List (Nat × Nat)), filter_loop kc l acc = .ok out →
    ∀ c ∈ out, c ∈ acc ∨ ∃ p ∈ l, p.1 = none ∧ c = kc.getD p.2.1 (0, 0) := by
  induction l with
  | nil =>
    intro acc out hok c hc
    rw [show filter_loop kc [] acc = .ok acc from rfl] at hok
    cases hok
    exact Or.inl hc
  | cons p rest ih =>
    intro acc out hok c hc
    obtain ⟨te, i, e⟩ := p
    match te with
    | none =>
      rw [show filter_loop kc ((none, (i, e)) :: rest) acc =
        filter_loop kc rest (acc ++ [kc.getD i (0, 0)]) from rfl] at hok
      rcases ih _ _ hok c hc with hacc | ⟨q, hq, h1, h2⟩
      · rcases List.mem_append.mp hacc with h | h
        · exact Or.inl h
        · refine Or.inr ⟨(none, (i, e)), List.mem_cons_self _ _, rfl, ?_⟩
          simpa using h
      · exact Or.inr ⟨q, List.mem_cons_of_mem _ hq, h1, h2⟩
    | some (v, li) =>
      rw [show filter_loop kc ((some (v, li), (i, e)) :: rest) acc =
        if v = e.value ∧ li = e.leaf_index then filter_loop kc rest acc
        else .error DIVERGENCE_MSG from rfl] at hok
      by_cases h : v = e.value ∧ li = e.leaf_index
      · rw [if_pos h] at hok
        rcases ih _ _ hok c hc with hacc | ⟨q, hq, h1, h2⟩
        · exact Or.inl hacc
        · exact Or.inr ⟨q, List.mem_cons_of_mem _ hq, h1, h2⟩
      · rw [if_neg h] at hok
        cases hok

theorem existing_starts_mem (cs : List (Option DbEntry)) :
    ∀ (k : Nat), ∀ p ∈ existing_starts k cs,
      k ≤ p.1 ∧ p.1 - k < cs.length ∧ cs.getD (p.1 - k) none = some p.2 := by
  induction cs with
  | nil => intro k p hp; simp [existing_starts] at hp
  | cons o rest ih =>
    intro k p hp
    cases o with
    | none =>
      rw [show existing_starts k (none :: rest) =
        existing_starts (k + 1) rest from rfl] at hp
      obtain ⟨h1, h2, h3⟩ := ih (k + 1) p hp
      refine ⟨by omega, by simp; omega, ?_⟩
      have hidx : p.1 - k = (p.1 - (k + 1)) + 1 := by omega
      rw [hidx, List.getD_cons_succ]
      exact h3
    | some e =>
      rw [show existing_starts k (some e :: rest) =
        (k, e) :: existing_starts (k + 1) rest from rfl] at hp
      rcases List.mem_cons.mp hp with hph | hptail
      · subst hph
        simp
      · obtain ⟨h1, h2, h3⟩ := ih (k + 1) p hptail
        refine ⟨by omega, by simp; omega, ?_⟩
        have hidx : p.1 - k = (p.1 - (k + 1)) + 1 := by omega
        rw [hidx, List.getD_cons_succ]
        exact h3

theorem existing_starts_mem_of (cs : List (Option DbEntry)) :
    ∀ (k i : Nat) (e : DbEntry), i < cs.length → cs.getD i none = some e →
      (k + i, e) ∈ existing_starts k cs := by
  induction cs with
  | nil => intro k i e hi; simp at hi
  | cons o rest ih =>
    intro k i e hi he
    cases i with
    | zero =>
      rw [List.getD_cons_zero] at he
      subst he
      rw [show existing_starts k (some e :: rest) =
        (k, e) :: existing_starts (k + 1) rest from rfl]
      simp
    | succ i' =>
      rw [List.getD_cons_succ] at he
      have hi' : i' < rest.length := by simp at hi; omega
      have hmem := ih (k + 1) i' e hi' he
      have hidx : k + (i' + 1) = (k + 1) + i' := by omega
      cases o with
      | none =>
        rw [show existing_starts k (none :: rest) =
          existing_starts (k + 1) rest from rfl, hidx]
        exact hmem
      | some e2 =>
        rw [show existing_starts k (some e2 :: rest) =
          (k, e2) :: existing_starts (k + 1) rest from rfl, hidx]
        exact List.mem_cons_of_mem _ hmem

theorem existing_starts_filterMap (tl : Nat → Option (Nat × Nat))
    (kc : List (Nat × Nat)) (cs : List (Option DbEntry)) :
    ∀ (k : Nat), k + cs.length ≤ kc.length →
    ((existing_starts k cs).filterMap fun q =>
        if tl q.2.key = none then some (kc.getD q.1 (0, 0)) else none) =
      ((kc.drop k).zip cs).filterMap fun p =>
        match p.2 with
        | some e => if tl e.key = none then some p.1 else none
        | none => none := by
  induction cs with
  | nil => intro k hk; simp [existing_starts]
  | cons o rest ih =>
    intro k hk
    have hklt : k < kc.length := by simp at hk; omega
    have hdrop : kc.drop k = kc[k] :: kc.drop (k + 1) :=
      List.drop_eq_getElem_cons hklt
    have hgetD : kc.getD k (0, 0) = kc[k] := by
      simp [List.getD_eq_getElem?_getD, List.getElem?_eq_getElem hklt]
    have hk' : (k + 1) + rest.length ≤ kc.length := by simp at hk; omega
    cases o with
    | none =>
      rw [show existing_starts k (none :: rest) =
        existing_starts (k + 1) rest from rfl, hdrop]
      exact ih (k + 1) hk'
    | some e =>
      rw [show existing_starts k (some e :: rest) =
        (k, e) :: existing_starts (k + 1) rest from rfl]
      rw [List.filterMap_cons, hdrop]
      rw [show (kc[k] :: kc.drop (k + 1)).zip (some e :: rest) =
        (kc[k], some e) :: (kc.drop (k + 1)).zip rest from rfl]
      rw [List.filterMap_cons]
      simp only [hgetD]
      cases h : tl e.key with
      | none => simp only [h, if_pos rfl, ih (k + 1) hk']
      | some q =>
        have : ¬ (some q = (none : Option (Nat × Nat))) := by simp
        simp only [h, if_neg this, ih (k + 1) hk']

theorem filter_chunks_eq_loop (tl : Nat → Option (Nat × Nat))
    (kc : List (Nat × Nat)) (cs : List (Option DbEntry)) :
    filter_chunks tl kc cs =
      filter_loop kc
        ((existing_starts 0 cs).map fun q => (tl q.2.key, q)) [] := by
  have hz := List.zip_map' (fun p : Nat × DbEntry => tl p.2.key) id
    (existing_starts 0 cs)
  rw [List.map_id] at hz
  show filter_loop kc
    (((existing_starts 0 cs).map fun p => tl p.2.key).zip
      (existing_starts 0 cs)) [] = _
  rw [hz]
  rfl

theorem pending_chunks_spec_sublist (tl : Nat → Option (Nat × Nat)) :
    ∀ (kc : List (Nat × Nat)) (cs : List (Option DbEntry)),
      List.Sublist (pending_chunks_spec tl kc cs) kc := by
  intro kc
  induction kc with
  | nil =>
    intro cs
    simp [pending_chunks_spec]
  | cons c kcs ih =>
    intro cs
    cases cs with
    | nil => simp [pending_chunks_spec]
    | cons o css =>
      cases o with
      | none =>
        have h : pending_chunks_spec tl (c :: kcs) (none :: css) =
            pending_chunks_spec tl kcs css := rfl
        rw [h]
        exact List.Sublist.cons c (ih css)
      | some e =>
        cases h : tl e.key with
        | none =>
          have h2 : pending_chunks_spec tl (c :: kcs) (some e :: css) =
              c :: pending_chunks_spec tl kcs css := by
            simp [pending_chunks_spec, h]
          rw [h2]
          exact List.Sublist.cons₂ c (ih css)
        | some v =>
          have h2 : pending_chunks_spec tl (c :: kcs) (some e :: css) =
              pending_chunks_spec tl kcs css := by
            simp [pending_chunks_spec, h]
          rw [h2]
          exact List.Sublist.cons c (ih css)

/-- Claim C8: whenever `filter_chunks` returns a chunk list, it is exactly the
subset of input chunks whose first entry exists in the source store but is
absent from the tree, preserved in the original chunk order (the pending
subset is a sublist of the input chunk list); chunks whose first entry is
absent in the source store are never emitted. -/
theorem filter_chunks_pending_output (tl : Nat → Option (Nat × Nat))
    (kc : List (Nat × Nat)) (cs : List (Option DbEntry))
    (hlen : cs.length = kc.length) :
    (∀ out, filter_chunks tl kc cs = .ok out →
      out = pending_chunks_spec tl kc cs) ∧
    List.Sublist (pending_chunks_spec tl kc cs) kc := by
  refine ⟨?_, pending_chunks_spec_sublist tl kc cs⟩
  intro out hok
  rw [filter_chunks_eq_loop] at hok
  by_cases hbad : ∃ p ∈ ((existing_starts 0 cs).map fun q => (tl q.2.key, q)),
      ∃ v li, p.1 = some (v, li) ∧ ¬(v = p.2.2.value ∧ li = p.2.2.leaf_index)
  · rw [filter_loop_error kc _ [] hbad] at hok
    cases hok
  · push_neg at hbad
    rw [filter_loop_ok kc _ [] ?_] at hok
    · simp only [List.nil_append] at hok
      injection hok with h
      rw [← h]
      rw [List.filterMap_map]
      have hcomp : ((fun p : Option (Nat × Nat) × (Nat × DbEntry) =>
          if p.1 = none then some (kc.getD p.2.1 (0, 0)) else none) ∘
          fun q : Nat × DbEntry => (tl q.2.key, q)) =
          fun q : Nat × DbEntry =>
            if tl q.2.key = none then some (kc.getD q.1 (0, 0)) else none :=
        rfl
      rw [hcomp, existing_starts_filterMap tl kc cs 0 (by omega),
        List.drop_zero]
      rfl
    · intro p hp v li hv
      exact hbad p hp v li hv

/-- Witness for claim C8 at a concrete input: two chunks, the first with an
existing start entry that is absent from the (empty) tree, the second with no
start entry in the source store; only the first chunk is pending. -/
theorem filter_chunks_pending_output_witness :
    ([some ⟨0, 5, 1⟩, none] : List (Option DbEntry)).length =
      [((0 : Nat), (1 : Nat)), (2, 3)].length ∧
    [((0 : Nat), (1 : Nat))] =
      pending_chunks_spec (fun _ => none) [(0, 1), (2, 3)]
        [some ⟨0, 5, 1⟩, none] ∧
    List.Sublist
      (pending_chunks_spec (fun _ => none) [(0, 1), (2, 3)]
        [some ⟨0, 5, 1⟩, none]) [(0, 1), (2, 3)] :=
  have h := filter_chunks_pending_output (fun _ => none) [(0, 1), (2, 3)]
    [some ⟨0, 5, 1⟩, none] rfl
  ⟨rfl, h.1 [(0, 1)] rfl, h.2⟩

/-- Claim C7: during chunk filtering, for every chunk whose first entry
exists in the source store and is also present in the tree, `filter_chunks`
fails with a fatal error whenever the tree's stored `(value, leaf_index)` for
that key differs from the source store's; chunks whose first entry is present
in the tree with matching data are treated as done and never contribute to
the output (every emitted chunk has a start entry that is absent from the
tree). -/
theorem filter_chunks_divergence (tl : Nat → Option (Nat × Nat))
    (kc : List (Nat × Nat)) (cs : List (Option DbEntry)) :
    (∀ i e v li, i < cs.length → cs.getD i none = some e →
      tl e.key = some (v, li) → ¬(v = e.value ∧ li = e.leaf_index) →
      filter_chunks tl kc cs = .error DIVERGENCE_MSG) ∧
    (∀ out, filter_chunks tl kc cs = .ok out → ∀ c ∈ out,
      ∃ i e, i < cs.length ∧ cs.getD i none = some e ∧ tl e.key = none ∧
        c = kc.getD i (0, 0)) := by
  constructor
  · intro i e v li hi he htl hne
    rw [filter_chunks_eq_loop]
    apply filter_loop_error
    have hmem : (0 + i, e) ∈ existing_starts 0 cs :=
      existing_starts_mem_of cs 0 i e hi he
    refine ⟨(tl e.key, (i, e)), ?_, v, li, ?_, ?_⟩
    · exact List.mem_map.mpr ⟨(i, e), by simpa using hmem, rfl⟩
    · simpa using htl
    · simpa using hne
  · intro out hok c hc
    rw [filter_chunks_eq_loop] at hok
    rcases filter_loop_ok_mem kc _ [] out hok c hc with h | ⟨p, hp, h1, h2⟩
    · simp at h
    · obtain ⟨q, hq, hfq⟩ := List.mem_map.mp hp
      obtain ⟨hk0, hlt, hgd⟩ := existing_starts_mem cs 0 q hq
      refine ⟨q.1, q.2, by simpa using hlt, by simpa using hgd, ?_, ?_⟩
      · rw [← hfq] at h1
        exact h1
      · rw [← hfq] at h2
        exact h2

/-- Witness for claim C7 at a concrete input: the tree stores value 7 for
key 5 while the source-store start entry for the chunk has value 8 — the
filter fails with the divergence error. -/
theorem filter_chunks_divergence_witness :
    filter_chunks (fun k => if k = 5 then some (7, 1) else none)
      [(0, 9)] [some ⟨5, 8, 1⟩] = .error DIVERGENCE_MSG :=
  (filter_chunks_divergence (fun k => if k = 5 then some (7, 1) else none)
    [(0, 9)] [some ⟨5, 8, 1⟩]).1 0 ⟨5, 8, 1⟩ 7 1 (by norm_num) rfl
    (by norm_num) (by norm_num)

end Recovery
